import Mathlib

/-!
Verification of the temporal record-linkage / feature-alignment engine of
`make-clinical-dataset`.  Dates are modelled as integer day numbers, patient
identifiers (`mrn`) as naturals, payload columns as optional integers
(`none` = missing value).  The combine/label modules themselves
(`make_clinical_dataset/combine.py`, `label.py`, `preprocess/clinic.py`,
`ml_common.anchor`) are not present under the repository snapshot; the
definitions below are modelled from the specification, while the pipeline
notebooks (which are present) fix how the operations are wired together.
-/

/-- An anchor-frame row: one (patient, anchor date) evaluation point. -/
structure MainRow where
  mrn : Nat
  date : Int
deriving DecidableEq, Repr

/-- A feature-table row: patient key, feature timestamp, N payload columns
(`none` = missing measurement for that column). -/
structure FeatRow where
  mrn : Nat
  date : Int
  vals : List (Option Int)
deriving DecidableEq, Repr

/-- Modelled from the spec: membership of a timestamp in the day-offset
window `[anchor + lo, anchor + hi]` used by the Windowed Join Engine. -/
def in_window (lo hi anchor t : Int) : Bool :=
  decide (anchor + lo ≤ t) && decide (t ≤ anchor + hi)

/-- Modelled from the spec: the per-anchor qualifying subset of the feature
table — rows of the same patient whose timestamp falls in the window. -/
def qualifying_rows (feat : List FeatRow) (mrn : Nat) (anchor lo hi : Int) :
    List FeatRow :=
  feat.filter (fun r => r.mrn == mrn && in_window lo hi anchor r.date)

/-- Distance (in days, as a natural number) from a feature timestamp to the
anchor timestamp. -/
def dist_to (anchor t : Int) : Nat := (t - anchor).natAbs

/-- Modelled from the spec: strict "closer to the anchor" comparison of the
nearest-match reducer — smaller absolute distance wins, and an exact tie is
broken by preferring the earlier timestamp. -/
def closer_to (anchor : Int) (x best : FeatRow) : Bool :=
  decide (dist_to anchor x.date < dist_to anchor best.date) ||
    (decide (dist_to anchor x.date = dist_to anchor best.date) &&
      decide (x.date < best.date))

/-- Modelled from the spec: nearest-to-anchor selection among the qualifying
rows; returns `none` exactly when no row qualifies. -/
def select_closest (anchor : Int) : List FeatRow → Option FeatRow
  | [] => none
  | r :: rs =>
      some (rs.foldl (fun best x => if closer_to anchor x best then x else best) r)

/-- Modelled from the spec: `merge_closest_measurements` (ml_common.anchor,
absent from src/) — the windowed left-outer join under the nearest-to-anchor
reduction policy.  `ncols` is the number of payload columns N; anchors with
no qualifying row receive `ncols` missing values. -/
def merge_closest_measurements (main : List MainRow) (feat : List FeatRow)
    (ncols : Nat) (lo hi : Int) : List (MainRow × List (Option Int)) :=
  main.map (fun m =>
    (m, match select_closest m.date (qualifying_rows feat m.mrn m.date lo hi)
        with
        | some r => r.vals
        | none => List.replicate ncols none))

/-- Insertion of a feature row into a date-sorted list (ascending). -/
def insert_by_date (r : FeatRow) : List FeatRow → List FeatRow
  | [] => [r]
  | x :: xs => if r.date ≤ x.date then r :: x :: xs else x :: insert_by_date r xs

/-- Date-ascending insertion sort of feature rows. -/
def sort_by_date : List FeatRow → List FeatRow
  | [] => []
  | r :: rs => insert_by_date r (sort_by_date rs)

/-- Last non-missing value of column `j` over a (date-sorted) row list. -/
def col_last (q : List FeatRow) (j : Nat) : Option Int :=
  q.foldl (fun acc r => match r.vals.getD j none with
    | some v => some v
    | none => acc) none

/-- Modelled from the spec: `combine_meas_to_main_data` (combine.py, absent
from src/) — the windowed left-outer join under the statistical-summary
policy, here with the `last`-by-time aggregate per column. -/
def combine_meas_to_main_data (main : List MainRow) (feat : List FeatRow)
    (ncols : Nat) (lo hi : Int) : List (MainRow × List (Option Int)) :=
  main.map (fun m =>
    let q := sort_by_date (qualifying_rows feat m.mrn m.date lo hi)
    (m, (List.range ncols).map (col_last q)))

/-- Modelled from the spec: `combine_feat_to_main_data` (combine.py, absent
from src/) — the windowed left-outer feature join under the
nearest-to-anchor policy. -/
def combine_feat_to_main_data (main : List MainRow) (feat : List FeatRow)
    (ncols : Nat) (lo hi : Int) : List (MainRow × List (Option Int)) :=
  main.map (fun m =>
    (m, match select_closest m.date (qualifying_rows feat m.mrn m.date lo hi)
        with
        | some r => r.vals
        | none => List.replicate ncols none))

/-- C1: for every anchor frame, feature table and day-offset window with
`lo ≤ hi`, each windowed feature join (`combine_feat_to_main_data`,
`combine_meas_to_main_data`, `merge_closest_measurements`) returns exactly
one row per original anchor row: output row count equals the anchor row
count, regardless of how many feature rows qualify. -/
theorem windowed_join_preserves_cardinality (main : List MainRow)
    (feat : List FeatRow) (ncols : Nat) (lo hi : Int) (hw : lo ≤ hi) :
    (merge_closest_measurements main feat ncols lo hi).length = main.length ∧
    (combine_meas_to_main_data main feat ncols lo hi).length = main.length ∧
    (combine_feat_to_main_data main feat ncols lo hi).length = main.length := by
  refine ⟨?_, ?_, ?_⟩ <;>
    simp [merge_closest_measurements, combine_meas_to_main_data,
      combine_feat_to_main_data]

/-- Witness for C1 at a concrete anchor frame, feature table and window. -/
theorem windowed_join_preserves_cardinality_witness :
    (-7 : Int) ≤ 0 ∧
    (merge_closest_measurements [⟨1, 10⟩, ⟨2, 20⟩]
      [⟨1, 8, [some 3]⟩, ⟨1, 9, [some 4]⟩] 1 (-7) 0).length = 2 :=
  ⟨by decide,
    (windowed_join_preserves_cardinality [⟨1, 10⟩, ⟨2, 20⟩]
      [⟨1, 8, [some 3]⟩, ⟨1, 9, [some 4]⟩] 1 (-7) 0 (by decide)).1⟩

/-- Lexicographic "no worse than" order of the nearest-match reducer:
strictly smaller distance to the anchor, or equal distance and an
earlier-or-equal timestamp. -/
def nm_le (anchor : Int) (x y : FeatRow) : Prop :=
  dist_to anchor x.date < dist_to anchor y.date ∨
    (dist_to anchor x.date = dist_to anchor y.date ∧ x.date ≤ y.date)

theorem nm_le_refl (anchor : Int) (x : FeatRow) : nm_le anchor x x :=
  Or.inr ⟨rfl, le_refl _⟩

theorem nm_le_trans (anchor : Int) (x y z : FeatRow) (hxy : nm_le anchor x y)
    (hyz : nm_le anchor y z) : nm_le anchor x z := by
  unfold nm_le at hxy hyz ⊢
  omega

theorem closer_to_false (anchor : Int) (x y : FeatRow)
    (h : closer_to anchor x y = false) : nm_le anchor y x := by
  simp only [closer_to, Bool.or_eq_false_iff, Bool.and_eq_false_iff,
    decide_eq_false_iff_not, not_lt] at h
  unfold nm_le
  omega

theorem closer_to_true (anchor : Int) (x y : FeatRow)
    (h : closer_to anchor x y = true) : nm_le anchor x y := by
  simp only [closer_to, Bool.or_eq_true, Bool.and_eq_true,
    decide_eq_true_eq] at h
  unfold nm_le
  omega

theorem select_fold_mem (anchor : Int) (rs : List FeatRow) (r : FeatRow) :
    rs.foldl (fun best x => if closer_to anchor x best then x else best) r ∈
      r :: rs := by
  induction rs generalizing r with
  | nil => simp
  | cons a rs ih =>
      simp only [List.foldl_cons]
      have h := ih (if closer_to anchor a r then a else r)
      by_cases hc : closer_to anchor a r = true <;>
        simp only [hc, if_true, if_false, Bool.not_eq_true, List.mem_cons] at h ⊢ <;>
        tauto

theorem select_fold_min (anchor : Int) (rs : List FeatRow) :
    ∀ (r x : FeatRow), x ∈ r :: rs →
    nm_le anchor
      (rs.foldl (fun best x => if closer_to anchor x best then x else best) r)
      x := by
  induction rs with
  | nil =>
      intro r x hx
      simp only [List.mem_singleton] at hx
      subst hx
      exact nm_le_refl anchor x
  | cons a rs ih =>
      intro r x hx
      simp only [List.foldl_cons]
      by_cases hc : closer_to anchor a r = true
      · rw [if_pos hc]
        rcases List.mem_cons.mp hx with hxr | hx2
        · rw [hxr]
          exact nm_le_trans anchor _ a r (ih a a (List.mem_cons_self a rs))
            (closer_to_true anchor a r hc)
        · rcases List.mem_cons.mp hx2 with hxa | hxs
          · rw [hxa]
            exact ih a a (List.mem_cons_self a rs)
          · exact ih a x (List.mem_cons_of_mem a hxs)
      · rw [if_neg hc]
        rcases List.mem_cons.mp hx with hxr | hx2
        · rw [hxr]
          exact ih r r (List.mem_cons_self r rs)
        · rcases List.mem_cons.mp hx2 with hxa | hxs
          · rw [hxa]
            exact nm_le_trans anchor _ r a (ih r r (List.mem_cons_self r rs))
              (closer_to_false anchor a r (Bool.eq_false_iff.mpr hc))
          · exact ih r x (List.mem_cons_of_mem r hxs)

theorem select_closest_mem (anchor : Int) (l : List FeatRow) (res : FeatRow)
    (h : select_closest anchor l = some res) : res ∈ l := by
  cases l with
  | nil => simp [select_closest] at h
  | cons r rs =>
      simp only [select_closest, Option.some_inj] at h
      subst h
      exact select_fold_mem anchor rs r

theorem select_closest_min (anchor : Int) (l : List FeatRow) (res : FeatRow)
    (h : select_closest anchor l = some res) (x : FeatRow) (hx : x ∈ l) :
    nm_le anchor res x := by
  cases l with
  | nil => simp [select_closest] at h
  | cons r rs =>
      simp only [select_closest, Option.some_inj] at h
      subst h
      exact select_fold_min anchor rs r x hx


/-- C3: in nearest-to-anchor reduction, for every anchor and every non-empty
qualifying set, the selected row minimizes the absolute distance to the
anchor, exact ties are broken toward the earlier (before-anchor) timestamp,
and in particular for an anchor at day 10 with feature rows at day 5 and
day 15 and window `[-7, +7]`, the day-5 row is selected. -/
theorem nearest_reduction_minimizes (anchor lo hi : Int) (mrn : Nat)
    (feat : List FeatRow) (res : FeatRow)
    (h : select_closest anchor (qualifying_rows feat mrn anchor lo hi) = some res) :
    res ∈ qualifying_rows feat mrn anchor lo hi ∧
    (∀ x ∈ qualifying_rows feat mrn anchor lo hi,
      dist_to anchor res.date ≤ dist_to anchor x.date ∧
      (dist_to anchor res.date = dist_to anchor x.date → res.date ≤ x.date)) ∧
    merge_closest_measurements [⟨1, 10⟩] [⟨1, 5, [some 55]⟩, ⟨1, 15, [some 66]⟩]
      1 (-7) 7 = [(⟨1, 10⟩, [some 55])] := by
  refine ⟨select_closest_mem anchor _ res h, ?_, by decide⟩
  intro x hx
  have := select_closest_min anchor _ res h x hx
  unfold nm_le at this
  omega

/-- Witness for C3: at anchor day 10 with feature rows at day 5 and day 15
and window `[-7, +7]`, the selection hypothesis holds and the selected
day-5 row is a qualifying row. -/
theorem nearest_reduction_minimizes_witness :
    select_closest 10 (qualifying_rows
      [⟨1, 5, [some 55]⟩, ⟨1, 15, [some 66]⟩] 1 10 (-7) 7) =
        some ⟨1, 5, [some 55]⟩ ∧
    (⟨1, 5, [some 55]⟩ : FeatRow) ∈ qualifying_rows
      [⟨1, 5, [some 55]⟩, ⟨1, 15, [some 66]⟩] 1 10 (-7) 7 :=
  ⟨by decide,
    (nearest_reduction_minimizes 10 (-7) 7 1
      [⟨1, 5, [some 55]⟩, ⟨1, 15, [some 66]⟩] ⟨1, 5, [some 55]⟩ (by decide)).1⟩

/-- C6: an anchor with zero qualifying feature rows — in particular any
anchor of a patient entirely absent from the feature table — receives the
missing value in every one of the `ncols` feature columns of the windowed
join, and no error is raised (the anchor row is still produced). -/
theorem no_qualifying_rows_all_missing (main : List MainRow)
    (feat : List FeatRow) (ncols : Nat) (lo hi : Int) (m : MainRow)
    (hm : m ∈ main) :
    (qualifying_rows feat m.mrn m.date lo hi = [] →
      (m, List.replicate ncols (none : Option Int)) ∈
        merge_closest_measurements main feat ncols lo hi) ∧
    ((∀ r ∈ feat, r.mrn ≠ m.mrn) →
      qualifying_rows feat m.mrn m.date lo hi = []) ∧
    (∀ v ∈ List.replicate ncols (none : Option Int), v = none) ∧
    (List.replicate ncols (none : Option Int)).length = ncols := by
  refine ⟨?_, ?_, ?_, ?_⟩
  · intro hq
    have hmem := List.mem_map_of_mem
      (f := fun m => (m, match select_closest m.date
          (qualifying_rows feat m.mrn m.date lo hi) with
        | some r => r.vals
        | none => List.replicate ncols none)) hm
    simp only [hq] at hmem
    simpa [merge_closest_measurements, select_closest] using hmem
  · intro habs
    unfold qualifying_rows
    rw [List.filter_eq_nil_iff]
    intro r hr
    simp only [Bool.and_eq_true, beq_iff_eq, not_and]
    intro hmrn
    exact absurd hmrn (habs r hr)
  · intro v hv
    exact (List.eq_of_mem_replicate hv)
  · exact List.length_replicate ncols none

/-- Witness for C6: a patient (mrn 1) absent from the feature table gets an
all-missing feature vector, via the theorem applied at a concrete frame. -/
theorem no_qualifying_rows_all_missing_witness :
    ((⟨1, 10⟩ : MainRow), List.replicate 2 (none : Option Int)) ∈
      merge_closest_measurements [⟨1, 10⟩] [⟨2, 8, [some 3]⟩] 2 (-7) 0 :=
  (no_qualifying_rows_all_missing [⟨1, 10⟩] [⟨2, 8, [some 3]⟩] 2 (-7) 0
    ⟨1, 10⟩ (by decide)).1 (by decide)

/-- An event-table row: patient key and event timestamp. -/
structure EventRow where
  mrn : Nat
  date : Int
deriving DecidableEq, Repr

/-- Modelled from the spec: membership of an event timestamp in the
single-sided lookback interval `(anchor - W, anchor]`. -/
def event_in_lookback (w anchor t : Int) : Bool :=
  decide (anchor - w < t) && decide (t ≤ anchor)

/-- Modelled from the spec: the boolean occurrence flag of the
Event-Count/Recency Combiner — 1 when at least one event of the patient
falls in `(anchor - W, anchor]`, else 0. -/
def ed_flag (events : List EventRow) (mrn : Nat) (anchor w : Int) : Nat :=
  if events.any (fun e => e.mrn == mrn && event_in_lookback w anchor e.date)
  then 1 else 0

/-- Modelled from the spec: `combine_event_to_main_data` (combine.py, absent
from src/) — adds the `<event_name>` occurrence column to the anchor
frame. -/
def combine_event_to_main_data (main : List MainRow) (events : List EventRow)
    (w : Int) : List (MainRow × Nat) :=
  main.map (fun m => (m, ed_flag events m.mrn m.date w))

theorem ed_flag_eq_one_iff (events : List EventRow) (mrn : Nat)
    (anchor w : Int) :
    ed_flag events mrn anchor w = 1 ↔
      ∃ e ∈ events, e.mrn = mrn ∧ anchor - w < e.date ∧ e.date ≤ anchor := by
  have hany : (events.any
      (fun e => e.mrn == mrn && event_in_lookback w anchor e.date) = true) ↔
      ∃ e ∈ events, e.mrn = mrn ∧ anchor - w < e.date ∧ e.date ≤ anchor := by
    simp [List.any_eq_true, event_in_lookback, and_assoc]
  unfold ed_flag
  by_cases h : events.any
      (fun e => e.mrn == mrn && event_in_lookback w anchor e.date) = true
  · rw [if_pos h]
    exact iff_of_true rfl (hany.mp h)
  · rw [if_neg h]
    exact iff_of_false (by decide) (fun hx => h (hany.mpr hx))

theorem ed_flag_eq_zero_iff (events : List EventRow) (mrn : Nat)
    (anchor w : Int) :
    ed_flag events mrn anchor w = 0 ↔
      ¬ ∃ e ∈ events, e.mrn = mrn ∧ anchor - w < e.date ∧ e.date ≤ anchor := by
  have h1 := ed_flag_eq_one_iff events mrn anchor w
  unfold ed_flag at h1 ⊢
  by_cases h : events.any
      (fun e => e.mrn == mrn && event_in_lookback w anchor e.date) = true
  · rw [if_pos h] at h1 ⊢
    exact iff_of_false (by decide) (fun hx => hx (h1.mp rfl))
  · rw [if_neg h] at h1 ⊢
    refine iff_of_true rfl (fun hx => ?_)
    rw [← h1] at hx
    exact absurd hx (by decide)

/-- C5: for every anchor row and single-sided lookback window length `W`,
the added event column is 1 if and only if the patient has at least one
event with timestamp in the half-open interval `(anchor - W, anchor]`, and
0 otherwise. -/
theorem event_column_occurrence_iff (main : List MainRow)
    (events : List EventRow) (w : Int) (p : MainRow × Nat)
    (hp : p ∈ combine_event_to_main_data main events w) :
    (p.2 = 1 ↔
      ∃ e ∈ events, e.mrn = p.1.mrn ∧ p.1.date - w < e.date ∧
        e.date ≤ p.1.date) ∧
    (p.2 = 0 ↔
      ¬ ∃ e ∈ events, e.mrn = p.1.mrn ∧ p.1.date - w < e.date ∧
        e.date ≤ p.1.date) := by
  rcases List.mem_map.mp hp with ⟨m, hm, rfl⟩
  exact ⟨ed_flag_eq_one_iff events m.mrn m.date w,
    ed_flag_eq_zero_iff events m.mrn m.date w⟩

/-- Witness for C5: a concrete anchor at day 10 with an ED visit at day 8
and lookback `W = 3` — the flag is 1 exactly because day 8 lies in
`(7, 10]`. -/
theorem event_column_occurrence_iff_witness :
    ((⟨1, 10⟩, 1) : MainRow × Nat).2 = 1 ↔
      ∃ e ∈ [(⟨1, 8⟩ : EventRow)],
        e.mrn = ((⟨1, 10⟩, 1) : MainRow × Nat).1.mrn ∧
        ((⟨1, 10⟩, 1) : MainRow × Nat).1.date - 3 < e.date ∧
        e.date ≤ ((⟨1, 10⟩, 1) : MainRow × Nat).1.date :=
  (event_column_occurrence_iff [⟨1, 10⟩] [⟨1, 8⟩] 3 (⟨1, 10⟩, 1)
    (by decide)).1

/-- Terminal states of the label deriver state machine. -/
inductive LabelState where
  | positive
  | negative
  | unobserved
deriving DecidableEq, Repr

/-- An anchor row of the labelling stage: patient key, anchor date, the
patient's recorded death date (if any) and last-seen (censor) date. -/
structure LblRow where
  mrn : Nat
  date : Int
  death_date : Option Int
  last_seen_date : Int
deriving DecidableEq, Repr

/-- Modelled from the spec: the death label for one horizon — positive when
a recorded death date falls in `(anchor, anchor + horizon]`; otherwise
negative when the censor (last-seen) date reaches `anchor + horizon`, and
unobserved when it does not. -/
def death_label (death : Option Int) (censor anchor h : Int) : LabelState :=
  match death with
  | some d =>
      if anchor < d ∧ d ≤ anchor + h then .positive
      else if anchor + h ≤ censor then .negative else .unobserved
  | none => if anchor + h ≤ censor then .negative else .unobserved

/-- Modelled from the spec: `get_death_labels` (label.py, absent from src/)
— one death label per horizon of the lookahead list for a given anchor
row. -/
def get_death_labels (lookahead : List Int) (row : LblRow) : List LabelState :=
  lookahead.map (death_label row.death_date row.last_seen_date row.date)

/-- C4: for every anchor row and every horizon in the lookahead list, the
death label is positive iff a recorded death lies in `(anchor, anchor+h]`,
negative iff no death is recorded in that span and the censor date reaches
`anchor + h`, and unobserved iff no death is recorded in that span and the
censor date falls short of `anchor + h`; censor at `anchor+400` with
horizon 365 and no death gives negative, censor at `anchor+100` gives
unobserved. -/
theorem death_label_characterization (lookahead : List Int) (row : LblRow)
    (h : Int) (hh : h ∈ lookahead) :
    death_label row.death_date row.last_seen_date row.date h ∈
      get_death_labels lookahead row ∧
    (death_label row.death_date row.last_seen_date row.date h =
        .positive ↔
      ∃ d, row.death_date = some d ∧ row.date < d ∧ d ≤ row.date + h) ∧
    (death_label row.death_date row.last_seen_date row.date h =
        .negative ↔
      (¬ ∃ d, row.death_date = some d ∧ row.date < d ∧ d ≤ row.date + h) ∧
        row.date + h ≤ row.last_seen_date) ∧
    (death_label row.death_date row.last_seen_date row.date h =
        .unobserved ↔
      (¬ ∃ d, row.death_date = some d ∧ row.date < d ∧ d ≤ row.date + h) ∧
        row.last_seen_date < row.date + h) ∧
    (∀ anchor : Int, death_label none (anchor + 400) anchor 365 =
      .negative) ∧
    (∀ anchor : Int, death_label none (anchor + 100) anchor 365 =
      .unobserved) := by
  refine ⟨List.mem_map_of_mem _ hh, ?_, ?_, ?_, ?_, ?_⟩
  · rcases hd : row.death_date with _ | d <;> simp only [death_label]
    · refine iff_of_false ?_ ?_
      · split_ifs <;> decide
      · rintro ⟨d, hsome, _⟩
        exact Option.noConfusion hsome
    · by_cases hin : row.date < d ∧ d ≤ row.date + h
      · rw [if_pos hin]
        exact iff_of_true rfl ⟨d, rfl, hin⟩
      · rw [if_neg hin]
        refine iff_of_false (by split_ifs <;> decide) ?_
        rintro ⟨e, hsome, h1, h2⟩
        cases Option.some_inj.mp hsome
        exact hin ⟨h1, h2⟩
  · rcases hd : row.death_date with _ | d <;> simp only [death_label]
    · by_cases hc : row.date + h ≤ row.last_seen_date
      · rw [if_pos hc]
        refine iff_of_true rfl ⟨?_, hc⟩
        rintro ⟨d, hsome, _⟩
        exact Option.noConfusion hsome
      · rw [if_neg hc]
        exact iff_of_false (by decide) (fun hx => hc hx.2)
    · by_cases hin : row.date < d ∧ d ≤ row.date + h
      · rw [if_pos hin]
        refine iff_of_false (by decide) ?_
        rintro ⟨hne, _⟩
        exact hne ⟨d, rfl, hin⟩
      · rw [if_neg hin]
        by_cases hc : row.date + h ≤ row.last_seen_date
        · rw [if_pos hc]
          refine iff_of_true rfl ⟨?_, hc⟩
          rintro ⟨e, hsome, h1, h2⟩
          cases Option.some_inj.mp hsome
          exact hin ⟨h1, h2⟩
        · rw [if_neg hc]
          exact iff_of_false (by decide) (fun hx => hc hx.2)
  · rcases hd : row.death_date with _ | d <;> simp only [death_label]
    · by_cases hc : row.date + h ≤ row.last_seen_date
      · rw [if_pos hc]
        exact iff_of_false (by decide) (fun hx => absurd hc (not_le.mpr hx.2))
      · rw [if_neg hc]
        refine iff_of_true rfl ⟨?_, not_le.mp hc⟩
        rintro ⟨d, hsome, _⟩
        exact Option.noConfusion hsome
    · by_cases hin : row.date < d ∧ d ≤ row.date + h
      · rw [if_pos hin]
        refine iff_of_false (by decide) ?_
        rintro ⟨hne, _⟩
        exact hne ⟨d, rfl, hin⟩
      · rw [if_neg hin]
        by_cases hc : row.date + h ≤ row.last_seen_date
        · rw [if_pos hc]
          exact iff_of_false (by decide)
            (fun hx => absurd hc (not_le.mpr hx.2))
        · rw [if_neg hc]
          refine iff_of_true rfl ⟨?_, not_le.mp hc⟩
          rintro ⟨e, hsome, h1, h2⟩
          cases Option.some_inj.mp hsome
          exact hin ⟨h1, h2⟩
  · intro anchor
    simp only [death_label, if_pos (by omega : anchor + 365 ≤ anchor + 400)]
  · intro anchor
    simp only [death_label]
    rw [if_neg (by omega : ¬ anchor + 365 ≤ anchor + 100)]

/-- Witness for C4 applied at a concrete anchor row and horizon list: no
death recorded, censor 400 days after the anchor, horizon 365 — the death
label is negative and belongs to the emitted label list. -/
theorem death_label_characterization_witness :
    death_label (⟨1, 0, none, 400⟩ : LblRow).death_date
        (⟨1, 0, none, 400⟩ : LblRow).last_seen_date
        (⟨1, 0, none, 400⟩ : LblRow).date 365 ∈
      get_death_labels [30, 365] ⟨1, 0, none, 400⟩ :=
  (death_label_characterization [30, 365] ⟨1, 0, none, 400⟩ 365
    (by decide)).1

/-- Helper of `line_of_therapy`: given the previous regimen and the current
line number, emits the line number of each remaining session, incrementing
whenever the regimen differs from the immediately preceding one. -/
def lot_go (prev : String) (cur : Nat) : List String → List Nat
  | [] => []
  | r :: rs =>
      (if r = prev then cur else cur + 1) ::
        lot_go r (if r = prev then cur else cur + 1) rs

/-- Modelled from the spec: `line_of_therapy` — over a patient's date-sorted
regimen sequence, the first regimen is line 1 and the line number increments
exactly when the regimen differs from the immediately preceding session's
regimen. -/
def line_of_therapy : List String → List Nat
  | [] => []
  | a :: rs => 1 :: lot_go a 1 rs

theorem lot_go_length (l : List String) : ∀ (prev : String) (cur : Nat),
    (lot_go prev cur l).length = l.length := by
  induction l with
  | nil => intro prev cur; rfl
  | cons r rs ih =>
      intro prev cur
      simp only [lot_go, List.length_cons, ih]

theorem lot_go_head (b : String) (rs : List String) (prev : String)
    (cur : Nat) :
    (lot_go prev cur (b :: rs)).getD 0 0 =
      if b = prev then cur else cur + 1 := by
  simp only [lot_go, List.getD_cons_zero]

theorem lot_go_step (l : List String) : ∀ (prev : String) (cur i : Nat),
    i + 1 < l.length →
    (lot_go prev cur l).getD (i + 1) 0 =
      (lot_go prev cur l).getD i 0 +
        (if l.getD (i + 1) "" = l.getD i "" then 0 else 1) := by
  induction l with
  | nil => intro prev cur i hi; simp at hi
  | cons a rs ih =>
      intro prev cur i hi
      match i with
      | 0 =>
          match rs, hi with
          | b :: rs2, _ =>
              simp only [lot_go, List.getD_cons_succ, List.getD_cons_zero,
                lot_go_head]
              by_cases hb : b = a <;> simp [hb]
      | j + 1 =>
          simp only [lot_go, List.getD_cons_succ]
          exact ih a (if a = prev then cur else cur + 1) j
            (by simpa using hi)

/-- C7: `line_of_therapy` over a date-sorted treatment history preserves the
session count, assigns line 1 to the first session, increments by exactly 1
at each session whose regimen differs from the immediately preceding one
(and keeps the value otherwise, so returning to an earlier regimen counts
as a new line), and maps the history `[A, A, B, B, A]` to `[1, 1, 2, 2, 3]`. -/
theorem line_of_therapy_spec (l : List String) :
    (line_of_therapy l).length = l.length ∧
    (0 < l.length → (line_of_therapy l).getD 0 0 = 1) ∧
    (∀ i, i + 1 < l.length →
      (line_of_therapy l).getD (i + 1) 0 =
        (line_of_therapy l).getD i 0 +
          (if l.getD (i + 1) "" = l.getD i "" then 0 else 1)) ∧
    line_of_therapy ["A", "A", "B", "B", "A"] = [1, 1, 2, 2, 3] := by
  refine ⟨?_, ?_, ?_, by decide⟩
  · cases l with
    | nil => rfl
    | cons a rs => simp only [line_of_therapy, List.length_cons, lot_go_length]
  · intro h
    cases l with
    | nil => simp at h
    | cons a rs => simp [line_of_therapy]
  · intro i hi
    cases l with
    | nil => simp at hi
    | cons a rs =>
        match i with
        | 0 =>
            match rs, hi with
            | b :: rs2, _ =>
                simp only [line_of_therapy, List.getD_cons_succ,
                  List.getD_cons_zero, lot_go_head]
                by_cases hb : b = a <;> simp [hb]
        | j + 1 =>
            simp only [line_of_therapy, List.getD_cons_succ]
            exact lot_go_step rs a 1 j (by simpa using hi)

/-- Witness for C7: the increment step of the theorem applied to the
concrete history `[A, A, B, B, A]` at position 1 → 2 (regimen change from
A to B raises the line number by 1). -/
theorem line_of_therapy_spec_witness :
    (line_of_therapy ["A", "A", "B", "B", "A"]).getD 2 0 =
      (line_of_therapy ["A", "A", "B", "B", "A"]).getD 1 0 +
        (if ["A", "A", "B", "B", "A"].getD 2 "" =
            ["A", "A", "B", "B", "A"].getD 1 "" then 0 else 1) :=
  (line_of_therapy_spec ["A", "A", "B", "B", "A"]).2.2.1 1 (by decide)

/-- Modelled from the spec: lookup of the ideal dose for a (drug, regimen)
combination in the static reference table; `none` when the combination is
unknown. -/
def ideal_dose_for (ref : List (String × String × ℚ)) (drug regimen : String) :
    Option ℚ :=
  (ref.find? (fun e => e.1 == drug && e.2.1 == regimen)).map
    (fun e => e.2.2)

/-- Modelled from the spec: percentage of the ideal dose actually given —
administered / ideal × 100, missing whenever the ideal dose cannot be
determined. -/
def perc_ideal_dose_given (given : ℚ) (ideal : Option ℚ) : Option ℚ :=
  ideal.map (fun i => given / i * 100)

/-- Modelled from the spec: `combine_perc_dose_to_main_data` (combine.py,
absent from src/) applied to one treatment session — one output column per
drug of the `included_drugs` set and none for any other drug; each value is
administered / ideal × 100, or missing when the drug was not given or its
ideal dose is unknown. -/
def combine_perc_dose_to_main_data (included_drugs : List String)
    (ref : List (String × String × ℚ)) (regimen : String)
    (given : List (String × ℚ)) : List (String × Option ℚ) :=
  included_drugs.map (fun d =>
    (d, match (given.find? (fun p => p.1 == d)).map Prod.snd with
        | some g => perc_ideal_dose_given g (ideal_dose_for ref d regimen)
        | none => none))

/-- C8: the dose-intensity deriver emits exactly one `%_ideal_dose_given`
column per included drug (drugs outside the included set yield no column at
all); the value is administered / ideal × 100 — concretely 150mg given with
200mg ideal is exactly 75 — and is missing, not zero and not an error,
whenever the ideal dose for the (drug, regimen) combination cannot be
determined. -/
theorem perc_dose_spec (included_drugs : List String)
    (ref : List (String × String × ℚ)) (regimen : String)
    (given : List (String × ℚ)) :
    ((combine_perc_dose_to_main_data included_drugs ref regimen given).map
      Prod.fst = included_drugs) ∧
    (∀ d, d ∉ included_drugs → ∀ v,
      (d, v) ∉ combine_perc_dose_to_main_data included_drugs ref regimen
        given) ∧
    (∀ g i, perc_ideal_dose_given g (some i) = some (g / i * 100)) ∧
    (∀ g, perc_ideal_dose_given g none = none) ∧
    perc_ideal_dose_given 150 (some 200) = some 75 := by
  refine ⟨?_, ?_, fun g i => rfl, fun g => rfl, ?_⟩
  · simp only [combine_perc_dose_to_main_data, List.map_map]
    exact List.map_id included_drugs
  · intro d hd v hv
    rcases List.mem_map.mp hv with ⟨a, ha, hav⟩
    have : a = d := congrArg Prod.fst hav
    rw [this] at ha
    exact hd ha
  · simp only [perc_ideal_dose_given, Option.map_some]
    norm_num

/-- Witness for C8: a drug absent from the included set yields no output
column, via the theorem applied at a concrete session. -/
theorem perc_dose_spec_witness :
    ("DOXORUBICIN HCL", (none : Option ℚ)) ∉
      combine_perc_dose_to_main_data ["CISPLATIN"]
        [("CISPLATIN", "GI-CISPFU ANAL", 200)] "GI-CISPFU ANAL"
        [("CISPLATIN", 150)] :=
  (perc_dose_spec ["CISPLATIN"] [("CISPLATIN", "GI-CISPFU ANAL", 200)]
    "GI-CISPFU ANAL" [("CISPLATIN", 150)]).2.1 "DOXORUBICIN HCL"
    (by decide) none

/-- A demographic-table row: patient key, optional birth date, sex flag. -/
structure DmgRow where
  mrn : Nat
  date_of_birth : Option Int
  female : Bool
deriving DecidableEq, Repr

/-- First demographic record of a patient, if any. -/
def dmg_lookup (dmg : List DmgRow) (mrn : Nat) : Option DmgRow :=
  dmg.find? (fun r => r.mrn == mrn)

/-- Minimum age at the anchor date (18 years, modelled in days). -/
def adult_age_days : Int := 18 * 365

/-- Whether an anchor row survives the demographic data-quality exclusion:
the patient has a demographic record with a known birth date and is at
least 18 years (modelled as 18 × 365 days) old at the anchor date. -/
def dmg_keep (dmg : List DmgRow) (m : MainRow) : Bool :=
  match dmg_lookup dmg m.mrn with
  | some d =>
      match d.date_of_birth with
      | some dob => decide (adult_age_days ≤ m.date - dob)
      | none => false
  | none => false

/-- Modelled from the spec: `combine_demographic_to_main_data` (combine.py,
absent from src/) — merges the demographic columns onto the anchor frame
and then removes the anchor rows of excluded patients (missing birth date
or under 18 years of age at the anchor date), as the data-quality exclusion
rules of the spec and the removal counts logged in the pipeline notebooks
describe. -/
def combine_demographic_to_main_data (main : List MainRow)
    (dmg : List DmgRow) : List (MainRow × DmgRow) :=
  main.filterMap (fun m =>
    match dmg_lookup dmg m.mrn with
    | some d =>
        match d.date_of_birth with
        | some dob =>
            if adult_age_days ≤ m.date - dob then some (m, d) else none
        | none => none
    | none => none)

theorem combine_dmg_keys (main : List MainRow) (dmg : List DmgRow) :
    (combine_demographic_to_main_data main dmg).map Prod.fst =
      main.filter (dmg_keep dmg) := by
  induction main with
  | nil => rfl
  | cons m ms ih =>
      rcases hl : dmg_lookup dmg m.mrn with _ | d
      · simpa [combine_demographic_to_main_data, dmg_keep, hl,
          List.filterMap_cons, List.filter_cons] using ih
      · rcases hb : d.date_of_birth with _ | dob
        · simpa [combine_demographic_to_main_data, dmg_keep, hl, hb,
            List.filterMap_cons, List.filter_cons] using ih
        · by_cases hage : adult_age_days ≤ m.date - dob <;>
            · simp only [combine_demographic_to_main_data,
                List.filterMap_cons, List.filter_cons, dmg_keep, hl, hb,
                hage, decide_eq_true_eq, if_true, if_false, List.map_cons]
              simpa [combine_demographic_to_main_data, dmg_keep] using ih

/-- A treatment-session row used by the engineered-feature deriver. -/
structure TrtRow where
  mrn : Nat
  date : Int
  regimen : String
deriving DecidableEq, Repr

/-- Insertion of a treatment row into a date-sorted list (ascending). -/
def insert_trt (r : TrtRow) : List TrtRow → List TrtRow
  | [] => [r]
  | x :: xs => if r.date ≤ x.date then r :: x :: xs else x :: insert_trt r xs

/-- Date-ascending insertion sort of treatment rows. -/
def sort_trt : List TrtRow → List TrtRow
  | [] => []
  | r :: rs => insert_trt r (sort_trt rs)

/-- Modelled from the spec: the most recent treatment date of a patient
inside the window `[anchor + lo, anchor + hi]`, if any. -/
def latest_in_window (trt : List EventRow) (mrn : Nat) (anchor lo hi : Int) :
    Option Int :=
  (trt.filter (fun r => r.mrn == mrn && in_window lo hi anchor r.date)).foldl
    (fun acc r =>
      match acc with
      | none => some r.date
      | some t => some (max t r.date)) none

/-- Modelled from the spec: `combine_treatment_to_main_data` (combine.py,
absent from src/) — backward-window join attaching each anchor's linked
treatment date (the most recent one inside the lookback window, missing
when there is none). -/
def combine_treatment_to_main_data (main : List MainRow)
    (trt : List EventRow) (lo hi : Int) : List (MainRow × Option Int) :=
  main.map (fun m => (m, latest_in_window trt m.mrn m.date lo hi))

/-- Modelled from the spec: `add_engineered_features` (combine.py, absent
from src/) — per-row engineered features; here the line-of-therapy ordinal
of each session, computed from the patient's date-sorted history up to and
including the anchor date. -/
def add_engineered_features (main : List TrtRow) : List (TrtRow × Nat) :=
  main.map (fun m =>
    (m, (line_of_therapy ((sort_trt (main.filter
      (fun r => r.mrn == m.mrn && decide (r.date ≤ m.date)))).map
        (fun r => r.regimen))).getLastD 0))

/-- A treatment session with its administered drug doses, as consumed by
the dose-intensity deriver. -/
structure TrtSess where
  mrn : Nat
  date : Int
  regimen : String
  given : List (String × ℚ)
deriving DecidableEq, Repr

/-- Frame-level dose-intensity join: one dose-intensity column block per
session row. -/
def combine_perc_dose_frame (included_drugs : List String)
    (ref : List (String × String × ℚ)) (main : List TrtSess) :
    List (TrtSess × List (String × Option ℚ)) :=
  main.map (fun m =>
    (m, combine_perc_dose_to_main_data included_drugs ref m.regimen m.given))

/-- Modelled from the spec: the ED-visit label — positive when at least one
ED event falls in the forward window `(anchor, anchor + horizon]`, else
negative (no censoring ambiguity). -/
def ed_label (events : List EventRow) (mrn : Nat) (anchor h : Int) :
    LabelState :=
  if events.any (fun e => e.mrn == mrn && decide (anchor < e.date) &&
      decide (e.date ≤ anchor + h))
  then .positive else .negative

/-- Modelled from the spec: `get_ED_labels` (label.py, absent from src/) —
frame-level ED-visit label join. -/
def get_ED_labels (main : List LblRow) (events : List EventRow) (h : Int) :
    List (LblRow × LabelState) :=
  main.map (fun m => (m, ed_label events m.mrn m.date h))

/-- Modelled from the spec: `get_death_labels` at frame level — one label
per lookahead horizon appended to each anchor row. -/
def get_death_labels_frame (main : List LblRow) (lookahead : List Int) :
    List (LblRow × List LabelState) :=
  main.map (fun m => (m, get_death_labels lookahead m))

/-- C2 (amended): every combine/label operation of the pipeline other than
the demographic join — treatment, feature (nearest and summary), event,
dose-intensity, engineered-feature and label joins — returns exactly the
anchor rows it received, only widened; the demographic join creates no rows
either, but drops exactly the anchor rows of patients excluded for a
missing demographic record, a missing birth date, or age under 18 at the
anchor date. -/
theorem combine_ops_preserve_anchor_rows (main : List MainRow)
    (feat : List FeatRow) (trt : List EventRow) (events : List EventRow)
    (dmg : List DmgRow) (trtmain : List TrtRow) (sessions : List TrtSess)
    (lmain : List LblRow) (included_drugs : List String)
    (ref : List (String × String × ℚ)) (lookahead : List Int)
    (ncols : Nat) (lo hi w h : Int) :
    ((combine_treatment_to_main_data main trt lo hi).map Prod.fst = main) ∧
    ((merge_closest_measurements main feat ncols lo hi).map Prod.fst =
      main) ∧
    ((combine_meas_to_main_data main feat ncols lo hi).map Prod.fst =
      main) ∧
    ((combine_feat_to_main_data main feat ncols lo hi).map Prod.fst =
      main) ∧
    ((combine_event_to_main_data main events w).map Prod.fst = main) ∧
    ((combine_perc_dose_frame included_drugs ref sessions).map Prod.fst =
      sessions) ∧
    ((add_engineered_features trtmain).map Prod.fst = trtmain) ∧
    ((get_death_labels_frame lmain lookahead).map Prod.fst = lmain) ∧
    ((get_ED_labels lmain events h).map Prod.fst = lmain) ∧
    ((combine_demographic_to_main_data main dmg).map Prod.fst =
      main.filter (dmg_keep dmg)) := by
  refine ⟨?_, ?_, ?_, ?_, ?_, ?_, ?_, ?_, ?_, combine_dmg_keys main dmg⟩ <;>
    · simp only [combine_treatment_to_main_data, merge_closest_measurements,
        combine_meas_to_main_data, combine_feat_to_main_data,
        combine_event_to_main_data, combine_perc_dose_frame,
        add_engineered_features, get_death_labels_frame, get_ED_labels,
        List.map_map]
      exact List.map_id _

/-- C2 counterexample: the demographic join does not preserve the anchor
row set — an anchor row of a patient whose demographic record lacks a
birth date is dropped, so the output anchor rows differ from the input
anchor rows. -/
theorem combine_demographic_drops_excluded_rows :
    ¬ ((combine_demographic_to_main_data [⟨1, 1000⟩] [⟨1, none, true⟩]).map
        Prod.fst = [⟨1, 1000⟩]) := by decide

/-- The weekly-Monday calendar-grid pipeline's ED-visit stage, wired as the
pipeline notebooks wire it: the backward treatment join first attaches the
linked treatment date to each grid anchor, and `combine_event_to_main_data`
is then invoked with the treatment-date column — not the assessment date —
as its reference date (rows with no linked treatment date get flag 0). -/
def weekly_monday_ed_pipeline (grid : List MainRow) (trt erv : List EventRow)
    (lo hi w : Int) : List (MainRow × Option Int × Nat) :=
  (combine_treatment_to_main_data grid trt lo hi).map (fun p =>
    (p.1, p.2, match p.2 with
      | some td => ed_flag erv p.1.mrn td w
      | none => 0))

/-- The weekly-Monday pipeline variant in which the symptom feature join is
likewise invoked with the treatment-date column as its reference date. -/
def weekly_monday_sym_variant (grid : List MainRow) (trt : List EventRow)
    (sym : List FeatRow) (ncols : Nat) (tlo thi slo shi : Int) :
    List (MainRow × Option Int × List (Option Int)) :=
  (combine_treatment_to_main_data grid trt tlo thi).map (fun p =>
    (p.1, p.2, match p.2 with
      | some td =>
          match select_closest td (qualifying_rows sym p.1.mrn td slo shi)
          with
          | some r => r.vals
          | none => List.replicate ncols none
      | none => List.replicate ncols none))

/-- C9: in the weekly-Monday grid mode the ED-visit flag of every output
row whose linked treatment date is `td` is computed in the lookback window
anchored at `td`, not at the assessment date; concretely, for a Monday
anchor at day 100 linked to a treatment at day 97 and an ED visit at day
93 with `W = 5`, the pipeline flags 1 (93 ∈ (92, 97]) whereas anchoring at
the assessment date would flag 0 (93 ∉ (95, 100]); the symptom-join
variant likewise picks the day-93 measurement from the treatment-date
window while an assessment-date window would yield missing. -/
theorem monday_ed_anchored_at_treatment_date (grid : List MainRow)
    (trt erv : List EventRow) (lo hi w : Int)
    (q : MainRow × Option Int × Nat)
    (hq : q ∈ weekly_monday_ed_pipeline grid trt erv lo hi w)
    (td : Int) (htd : q.2.1 = some td) :
    (q.2.2 = 1 ↔
      ∃ e ∈ erv, e.mrn = q.1.mrn ∧ td - w < e.date ∧ e.date ≤ td) ∧
    weekly_monday_ed_pipeline [⟨1, 100⟩] [⟨1, 97⟩] [⟨1, 93⟩] (-7) 0 5 =
      [(⟨1, 100⟩, some 97, 1)] ∧
    combine_event_to_main_data [⟨1, 100⟩] [⟨1, 93⟩] 5 = [(⟨1, 100⟩, 0)] ∧
    weekly_monday_sym_variant [⟨1, 100⟩] [⟨1, 97⟩] [⟨1, 93, [some 8]⟩] 1
      (-7) 0 (-5) 0 = [(⟨1, 100⟩, some 97, [some 8])] ∧
    merge_closest_measurements [⟨1, 100⟩] [⟨1, 93, [some 8]⟩] 1 (-5) 0 =
      [(⟨1, 100⟩, [none])] := by
  refine ⟨?_, by decide, by decide, by decide, by decide⟩
  rcases List.mem_map.mp hq with ⟨p, hp, rfl⟩
  simp only at htd
  simp only [htd]
  exact ed_flag_eq_one_iff erv p.1.mrn td w

/-- Witness for C9: the windowing iff of the theorem at the concrete Monday
anchor (day 100, linked treatment day 97, ED visit day 93, `W = 5`). -/
theorem monday_ed_anchored_at_treatment_date_witness :
    (((⟨1, 100⟩, some 97, 1) : MainRow × Option Int × Nat).2.2 = 1 ↔
      ∃ e ∈ [(⟨1, 93⟩ : EventRow)],
        e.mrn = ((⟨1, 100⟩, some 97, 1) :
          MainRow × Option Int × Nat).1.mrn ∧
        (97 : Int) - 5 < e.date ∧ e.date ≤ 97) :=
  (monday_ed_anchored_at_treatment_date [⟨1, 100⟩] [⟨1, 97⟩] [⟨1, 93⟩]
    (-7) 0 5 (⟨1, 100⟩, some 97, 1) (by decide) 97 (by decide)).1

/-- Modelled from the spec: the most recent treatment session (with its
payload) of a patient inside the window `[anchor + lo, anchor + hi]`. -/
def latest_trt_in_window (trt : List TrtRow) (mrn : Nat)
    (anchor lo hi : Int) : Option TrtRow :=
  (trt.filter (fun r => r.mrn == mrn && in_window lo hi anchor r.date)).foldl
    (fun acc r =>
      match acc with
      | none => some r
      | some b => if b.date ≤ r.date then some r else some b) none

/-- The clinic-mode backward treatment join: each clinic anchor carries the
treatment information of its most recent session inside the lookback
window, or nothing when no session qualifies. -/
def combine_treatment_info (main : List MainRow) (trt : List TrtRow)
    (lo hi : Int) : List (MainRow × Option TrtRow) :=
  main.map (fun m => (m, latest_trt_in_window trt m.mrn m.date lo hi))

/-- Modelled from the spec: the per-patient forward fill underlying
`backfill_treatment_info` — `seen` maps each patient to the treatment
information most recently carried by one of their earlier rows. -/
def backfill_go (seen : List (Nat × TrtRow)) :
    List (MainRow × Option TrtRow) → List (MainRow × Option TrtRow)
  | [] => []
  | p :: ps =>
      match p.2 with
      | some info => p :: backfill_go ((p.1.mrn, info) :: seen) ps
      | none =>
          match (seen.find? (fun q => q.1 == p.1.mrn)).map Prod.snd with
          | some info => (p.1, some info) :: backfill_go seen ps
          | none => p :: backfill_go seen ps

/-- Modelled from the spec: `backfill_treatment_info` (preprocess/clinic.py,
absent from src/) — after the bounded-lookback treatment join, fills each
anchor row's still-missing treatment information from the patient's most
recent earlier row that carries it. -/
def backfill_treatment_info (rows : List (MainRow × Option TrtRow)) :
    List (MainRow × Option TrtRow) :=
  backfill_go [] rows

/-- The clinic-visit anchor pipeline's treatment stage as the notebooks
wire it: bounded-lookback treatment join, then backfill. -/
def clinic_pipeline (clinic : List MainRow) (trt : List TrtRow)
    (lo hi : Int) : List (MainRow × Option TrtRow) :=
  backfill_treatment_info (combine_treatment_info clinic trt lo hi)

theorem backfill_go_keys (l : List (MainRow × Option TrtRow)) :
    ∀ seen, (backfill_go seen l).map Prod.fst = l.map Prod.fst := by
  induction l with
  | nil => intro seen; rfl
  | cons p ps ih =>
      intro seen
      rcases hp : p.2 with _ | info
      · rcases hf : (seen.find? (fun q => q.1 == p.1.mrn)).map Prod.snd
          with _ | info2
        · simp [backfill_go, hp, hf, ih]
        · simp [backfill_go, hp, hf, ih]
      · simp [backfill_go, hp, ih]

/-- C10: in the clinic-visit anchor mode, `backfill_treatment_info` runs
after the bounded-lookback treatment join and fills still-missing treatment
information without touching the anchor rows themselves; concretely, the
clinic visit at day 100 has no treatment inside its window `[-28, -1]` and
would stay all-missing under the windowed join alone, yet after the
backfill it carries the day-5 session's information forward from the
day-10 visit. -/
theorem clinic_backfill_fills_missing_treatment_info :
    (∀ rows, (backfill_treatment_info rows).map Prod.fst =
      rows.map Prod.fst) ∧
    combine_treatment_info [⟨1, 10⟩, ⟨1, 100⟩] [⟨1, 5, "GI-FOLFIRI"⟩]
      (-28) (-1) =
      [(⟨1, 10⟩, some ⟨1, 5, "GI-FOLFIRI"⟩), (⟨1, 100⟩, none)] ∧
    clinic_pipeline [⟨1, 10⟩, ⟨1, 100⟩] [⟨1, 5, "GI-FOLFIRI"⟩] (-28) (-1) =
      [(⟨1, 10⟩, some ⟨1, 5, "GI-FOLFIRI"⟩),
        (⟨1, 100⟩, some ⟨1, 5, "GI-FOLFIRI"⟩)] :=
  ⟨fun rows => backfill_go_keys rows [], by decide, by decide⟩
